import Mathlib

/-!
# Read path of the `ibm_is_source_share` data source

A shallow embedding of `dataSourceIbmIsSourceShareRead`
(`ibm/service/vpc/data_source_ibm_is_source_share.go`) and the properties of
its error handling, its guarded attribute assignments and its tag
augmentation.

The Go function mutates a `*schema.ResourceData` and returns diagnostics.  Here
the container is passed explicitly and every call to a collaborator that lives
outside the file (the VPC client, the tagging helper, the flatteners, the
verdict of the container on a checked `Set`) is a field of `Env`.  The two
unchecked tag assignments hand a set of strings to keys that the schema of the
file declares as sets of strings, and are accepted.  A nil pointer dereference
is an outcome of its own (`Outcome.panicked`), distinct from returning
diagnostics.  Calls to `log.Printf` have no effect on the container or on the
returned diagnostics and are left out.
-/

namespace SourceShare

/-! ## Response types (the fields of `vpcbetav1.Share` that the read touches) -/

/-- A reason attached to the status of a share job. -/
structure ShareJobStatusReason where
  Code : Option String
  Message : Option String
  MoreInfo : Option String
deriving DecidableEq

/-- The latest job of a share. -/
structure ShareJob where
  Status : Option String
  StatusReasons : Option (List ShareJobStatusReason)
  Type_ : Option String
deriving DecidableEq

/-- A reason attached to the replication status of a share. -/
structure ShareReplicationStatusReason where
  Code : Option String
  Message : Option String
  MoreInfo : Option String
deriving DecidableEq

/-- The marker carried by a reference whose target has been deleted. -/
structure ShareReferenceDeleted where
  MoreInfo : Option String
deriving DecidableEq

/-- A reference to another share (replica or source). -/
structure ShareReference where
  CRN : Option String
  Deleted : Option ShareReferenceDeleted
  Href : Option String
  ID : Option String
  Name : Option String
  ResourceType : Option String
deriving DecidableEq

/-- A reference to a mount target of the share. -/
structure ShareMountTargetReference where
  Deleted : Option ShareReferenceDeleted
  Href : Option String
  ID : Option String
  Name : Option String
  ResourceType : Option String
deriving DecidableEq

/-- The key that encrypts a share; the read projects its `CRN`. -/
structure EncryptionKeyReference where
  CRN : Option String
deriving DecidableEq

/-- The profile of a share; the read projects its `Name`. -/
structure ShareProfileReference where
  Name : Option String
deriving DecidableEq

/-- The resource group of a share; the read projects its `ID`. -/
structure ResourceGroupReference where
  ID : Option String
deriving DecidableEq

/-- The zone of a share; the read projects its `Name`. -/
structure ZoneReference where
  Name : Option String
deriving DecidableEq

/-- The share returned by `GetShareSourceWithContext`.  Every Go pointer is an
`Option`; a slice is an `Option (List _)` so that a nil slice and an empty one
stay apart.  `CreatedAt` holds the text that `CreatedAt.String()` renders. -/
structure Share where
  ID : Option String
  CreatedAt : Option String
  CRN : Option String
  Encryption : Option String
  EncryptionKey : Option EncryptionKeyReference
  Href : Option String
  Iops : Option Int
  LatestJob : Option ShareJob
  LifecycleState : Option String
  Name : Option String
  Profile : Option ShareProfileReference
  ReplicaShare : Option ShareReference
  ReplicationCronSpec : Option String
  ReplicationRole : Option String
  ReplicationStatus : Option String
  ReplicationStatusReasons : Option (List ShareReplicationStatusReason)
  ResourceGroup : Option ResourceGroupReference
  ResourceType : Option String
  Size : Option Int
  SourceShare : Option ShareReference
  MountTargets : Option (List ShareMountTargetReference)
  Zone : Option ZoneReference
deriving DecidableEq

/-- The HTTP response that accompanies a fetch. -/
structure DetailedResponse where
  StatusCode : Int
deriving DecidableEq

/-- The three results of `GetShareSourceWithContext`: share, response, error. -/
structure GetShareSourceResult where
  share : Option Share
  response : Option DetailedResponse
  err : Option String
deriving DecidableEq

/-- The VPC client: one fetch keyed by the replica share identifier. -/
structure VpcBetaV1 where
  GetShareSourceWithContext : String → GetShareSourceResult

/-! ## The output container -/

/-- A cell of a flattened record: a string or a nested list of string records. -/
inductive Field where
  | str (s : String)
  | rows (rs : List (List (String × String)))
deriving DecidableEq

/-- A flattened record (`map[string]interface{}`), as an association list. -/
abbrev Row := List (String × Field)

/-- The values that the read hands to `d.Set`: a string, a pointer to a string
or to an integer, a list of flattened records, a set of strings. -/
inductive Value where
  | str (s : String)
  | strPtr (p : Option String)
  | intPtr (p : Option Int)
  | list (rows : List Row)
  | set (elems : List String)
deriving DecidableEq

/-- The state of a `schema.ResourceData`: the identity key and the attributes
assigned so far (`none` for a key that has never been assigned). -/
structure ResourceData where
  id : String
  attrs : String → Option Value

/-- The identity key is set: `d.SetId(v)`. -/
def ResourceData.SetId (d : ResourceData) (v : String) : ResourceData :=
  { d with id := v }

/-- The string stored under a key, or the empty string: `d.Get(key).(string)`. -/
def ResourceData.Get (d : ResourceData) (key : String) : String :=
  match d.attrs key with
  | some (Value.str s) => s
  | _ => ""

/-- The container with `key` bound to `v`. -/
def ResourceData.write (d : ResourceData) (key : String) (v : Value) : ResourceData :=
  { d with attrs := fun k => if k = key then some v else d.attrs k }

/-- The verdict of the container on an assignment: `none` when it accepts the
value for the key, `some e` when it rejects it with error text `e`. -/
abbrev Writer := String → Value → Option String

/-- The call `d.Set(key, v)`: the error it returns, and the container after it.
A rejected assignment leaves the container as it was. -/
def ResourceData.Set (w : Writer) (d : ResourceData) (key : String) (v : Value) :
    Option String × ResourceData :=
  match w key v with
  | some e => (some e, d)
  | none => (none, d.write key v)

/-! ## Collaborators -/

/-- Everything the read calls that is declared outside the file: the session
(`meta`), the container's verdict on the checked assignments, the flatteners,
the tag helper and the four constants. -/
structure Env where
  VpcV1BetaAPI : Except String VpcBetaV1
  writer : Writer
  dataSourceShareFlattenLatestJob : ShareJob → List Row
  dataSourceShareFlattenReplicaShare : ShareReference → List Row
  dataSourceShareFlattenReplicationStatusReasons : List ShareReplicationStatusReason → List Row
  dataSourceShareFlattenSourceShare : ShareReference → List Row
  dataSourceShareFlattenTargets : List ShareMountTargetReference → List Row
  GetGlobalTagsUsingCRN : String → String → String → Except String (List String)
  isUserTagType : String
  isAccessTagType : String
  isFileShareTags : String
  isFileShareAccessTags : String

/-- Modelled from the spec: `flex.GetGlobalTagsUsingCRN` is declared outside the
file; a lookup yields a set of strings or an error (spec, section 6).  After a
failed lookup the Go variable is the nil set, which the container records as a
set without elements.  This is the value handed to `d.Set` after a lookup. -/
def tagSet (r : Except String (List String)) : Value :=
  match r with
  | Except.ok tags => Value.set tags
  | Except.error _ => Value.set []

/-! ## The read -/

/-- How a call of the read ends: it returns diagnostics (none on success), or it
dereferences a nil pointer. -/
inductive Outcome where
  | returned (diags : List String)
  | panicked
deriving DecidableEq

/-- One `d.Set` whose error is checked: the guard in front of it (`true` when
there is none), the key, the text in front of the error in the diagnostic, and
the argument (`none` when evaluating it dereferences a nil pointer). -/
structure Assignment where
  guard : Bool
  key : String
  errText : String
  arg : Option Value

/-- An assignment with no guard in front of it. -/
def always (key errText : String) (arg : Option Value) : Assignment :=
  { guard := true, key := key, errText := errText, arg := arg }

/-- An assignment under `if p != nil`, its argument computed from `*p`. -/
def whenPresent {α : Type} (p : Option α) (key errText : String) (arg : α → Option Value) :
    Assignment :=
  { guard := p.isSome, key := key, errText := errText, arg := p.bind arg }

/-- The checked assignments of the read, in source order.  Each row is one
`err = d.Set(key, arg)` followed by `return diag.FromErr(fmt.Errorf(...))` when
the error is not nil; the text is the format string up to its `%s`.  A row
built with `whenPresent` is one that the source wraps in `if share.X != nil`. -/
def fieldAssignments (env : Env) (share : Share) : List Assignment :=
  [ always "created_at" "Error setting created_at: " (share.CreatedAt.map Value.str),
    always "crn" "Error setting crn: " (some (Value.strPtr share.CRN)),
    always "encryption" "Error setting encryption: " (some (Value.strPtr share.Encryption)),
    whenPresent share.EncryptionKey "encryption_key" "Error setting encryption_key "
      (fun k => k.CRN.map Value.str),
    always "href" "Error setting href: " (some (Value.strPtr share.Href)),
    always "iops" "Error setting iops: " (some (Value.intPtr share.Iops)),
    whenPresent share.LatestJob "latest_job" "Error setting latest_job "
      (fun j => some (Value.list (env.dataSourceShareFlattenLatestJob j))),
    always "lifecycle_state" "Error setting lifecycle_state: "
      (some (Value.strPtr share.LifecycleState)),
    always "name" "Error setting name: " (some (Value.strPtr share.Name)),
    whenPresent share.Profile "profile" "Error setting profile "
      (fun p => p.Name.map Value.str),
    whenPresent share.ReplicaShare "replica_share" "Error setting replica_share "
      (fun r => some (Value.list (env.dataSourceShareFlattenReplicaShare r))),
    always "replication_cron_spec" "Error setting replication_cron_spec: "
      (some (Value.strPtr share.ReplicationCronSpec)),
    always "replication_role" "Error setting replication_role: "
      (some (Value.strPtr share.ReplicationRole)),
    always "replication_status" "Error setting replication_status: "
      (some (Value.strPtr share.ReplicationStatus)),
    whenPresent share.ReplicationStatusReasons "replication_status_reasons"
      "Error setting replication_status_reasons "
      (fun rs => some (Value.list (env.dataSourceShareFlattenReplicationStatusReasons rs))),
    whenPresent share.ResourceGroup "resource_group" "Error setting resource_group "
      (fun g => g.ID.map Value.str),
    always "resource_type" "Error setting resource_type: "
      (some (Value.strPtr share.ResourceType)),
    always "size" "Error setting size: " (some (Value.intPtr share.Size)),
    whenPresent share.SourceShare "source_share" "Error setting source_share "
      (fun s => some (Value.list (env.dataSourceShareFlattenSourceShare s))),
    whenPresent share.MountTargets "share_targets" "Error setting targets "
      (fun ts => some (Value.list (env.dataSourceShareFlattenTargets ts))),
    whenPresent share.Zone "zone" "Error setting zone "
      (fun z => z.Name.map Value.str) ]

/-- The checked assignments run in order.  The first component is `none` when
all of them went through, and the outcome of the read when one of them stopped
it: a failed `d.Set` returns its diagnostic, a nil dereference panics. -/
def runAssignments (w : Writer) : List Assignment → ResourceData → Option Outcome × ResourceData
  | [], d => (none, d)
  | a :: rest, d =>
    if a.guard then
      match a.arg with
      | none => (some Outcome.panicked, d)
      | some v =>
        match d.Set w a.key v with
        | (some e, d1) => (some (Outcome.returned [a.errText ++ e]), d1)
        | (none, d1) => runAssignments w rest d1
    else runAssignments w rest d

/-- The verdict of the container on the two tag assignments.  The schema of the
file declares both tag keys as sets of strings (`schema.TypeSet` with elements
of `schema.TypeString`) and the value handed over is a set of strings or the
nil set, so the container accepts it for either key. -/
def tagVerdict : Writer := fun _ _ => none

/-- The tag augmentation: two lookups keyed by the share's CRN, then two
assignments whose errors are dropped. -/
def augmentTags (env : Env) (share : Share) (d : ResourceData) : Outcome × ResourceData :=
  match share.CRN with
  | none => (Outcome.panicked, d)
  | some crn =>
    let tags := env.GetGlobalTagsUsingCRN crn "" env.isUserTagType
    let accesstags := env.GetGlobalTagsUsingCRN crn "" env.isAccessTagType
    let d1 := (d.Set tagVerdict env.isFileShareTags (tagSet tags)).2
    let d2 := (d1.Set tagVerdict env.isFileShareAccessTags (tagSet accesstags)).2
    (Outcome.returned [], d2)

/-- The part of the read that follows a fetch without error. -/
def populate (env : Env) (share : Option Share) (d : ResourceData) : Outcome × ResourceData :=
  match share with
  | none => (Outcome.panicked, d)
  | some share =>
    match share.ID with
    | none => (Outcome.panicked, d)
    | some id =>
      match runAssignments env.writer (fieldAssignments env share) (d.SetId id) with
      | (some stop, d1) => (stop, d1)
      | (none, d1) => augmentTags env share d1

/-- The read of the data source: the outcome and the container after the call. -/
def dataSourceIbmIsSourceShareRead (env : Env) (d : ResourceData) : Outcome × ResourceData :=
  match env.VpcV1BetaAPI with
  | Except.error e => (Outcome.returned [e], d)
  | Except.ok vpcClient =>
    let replicaShareId := d.Get "share_replica"
    let r := vpcClient.GetShareSourceWithContext replicaShareId
    match r.err with
    | some e =>
      match r.response with
      | some response =>
        (Outcome.returned [], if response.StatusCode = 404 then d.SetId "" else d)
      | none =>
        (Outcome.returned ["[DEBUG] GetShareWithContext failed " ++ e ++ "\n"], d)
    | none => populate env r.share d

/-- A diagnostic mentions a text when the text occurs in it. -/
def Mentions (msg part : String) : Prop := part.data <:+: msg.data

instance (msg part : String) : Decidable (Mentions msg part) := by
  unfold Mentions; infer_instance

/-- The value under `k` once every guarded assignment of the list has gone
through, starting from `init`: the argument of the last one keyed `k`. -/
def plannedValue (k : String) : List Assignment → Option Value → Option Value
  | [], init => init
  | a :: rest, init => plannedValue k rest (if a.guard = true ∧ a.key = k then a.arg else init)

/-- The keys that the read assigns with error checking. -/
def attributeKeys : List String :=
  [ "created_at", "crn", "encryption", "encryption_key", "href", "iops", "latest_job",
    "lifecycle_state", "name", "profile", "replica_share", "replication_cron_spec",
    "replication_role", "replication_status", "replication_status_reasons", "resource_group",
    "resource_type", "size", "source_share", "share_targets", "zone" ]

/-- The two tag keys are distinct from each other and from the keys assigned
with error checking: all of them are keys of the one map literal that declares
the schema, where Go rejects a duplicate constant key. -/
def TagKeysApart (env : Env) : Prop :=
  env.isFileShareTags ≠ env.isFileShareAccessTags ∧
  env.isFileShareTags ∉ attributeKeys ∧
  env.isFileShareAccessTags ∉ attributeKeys

instance (env : Env) : Decidable (TagKeysApart env) := by
  unfold TagKeysApart; infer_instance

/-- A nested record, when present, carries the field that the read projects. -/
def projected {α : Type} (p : Option α) (f : α → Option String) : Bool :=
  match p with
  | none => true
  | some x => (f x).isSome

/-- Every pointer that the read dereferences is present: the share's id,
creation time and CRN, and the projected field of each nested record that is
present (encryption key and CRN, profile and name, resource group and id, zone
and name). -/
def Share.Complete (share : Share) : Prop :=
  share.ID.isSome = true ∧ share.CreatedAt.isSome = true ∧ share.CRN.isSome = true ∧
  projected share.EncryptionKey (fun k => k.CRN) = true ∧
  projected share.Profile (fun p => p.Name) = true ∧
  projected share.ResourceGroup (fun g => g.ID) = true ∧
  projected share.Zone (fun z => z.Name) = true

instance (share : Share) : Decidable share.Complete := by
  unfold Share.Complete; infer_instance

/-- A row passes when its argument can be computed without dereferencing a
nil pointer and the container accepts it under the key of the row. -/
def Assignment.passes (w : Writer) (a : Assignment) : Bool :=
  match a.arg with
  | none => false
  | some v => (w a.key v).isNone

/-- Every guarded row of the list passes. -/
def Passes (w : Writer) (rows : List Assignment) : Prop :=
  ∀ a ∈ rows, a.guard = true → a.passes w = true

instance (w : Writer) (rows : List Assignment) : Decidable (Passes w rows) := by
  unfold Passes; infer_instance

/-- The rows of a list up to and including the first one keyed `k`. -/
def upTo (k : String) : List Assignment → List Assignment
  | [] => []
  | a :: rest => if a.key = k then [a] else a :: upTo k rest

/-- The rows of a list that follow the first one keyed `k`. -/
def after (k : String) : List Assignment → List Assignment
  | [] => []
  | a :: rest => if a.key = k then rest else after k rest

/-! ## Sample inputs -/

/-- Modelled from the spec: a status reason flattened to its present fields
(spec, section 4.1). -/
def reasonRecord (code message moreInfo : Option String) : List (String × String) :=
  (code.map (fun s => ("code", s))).toList ++
  (message.map (fun s => ("message", s))).toList ++
  (moreInfo.map (fun s => ("more_info", s))).toList

/-- Modelled from the spec: an optional string field, omitted when absent. -/
def optionalField (key : String) (p : Option String) : Row :=
  (p.map (fun s => (key, Field.str s))).toList

/-- Modelled from the spec: a deletion marker as a one-element list of one
mapping, omitted when absent. -/
def deletedField (p : Option ShareReferenceDeleted) : Row :=
  (p.map (fun del =>
    ("deleted", Field.rows [(del.MoreInfo.map (fun s => ("more_info", s))).toList]))).toList

/-- Modelled from the spec: `dataSourceShareFlattenLatestJob`, declared outside
the file (spec, section 4.1). -/
def flattenLatestJob (j : ShareJob) : List Row :=
  [ optionalField "status" j.Status ++
    [("status_reasons", Field.rows
      ((j.StatusReasons.getD []).map (fun r => reasonRecord r.Code r.Message r.MoreInfo)))] ++
    optionalField "type" j.Type_ ]

/-- Modelled from the spec: `dataSourceShareFlattenReplicaShare` and
`dataSourceShareFlattenSourceShare`, declared outside the file. -/
def flattenShareReference (r : ShareReference) : List Row :=
  [ optionalField "crn" r.CRN ++ deletedField r.Deleted ++ optionalField "href" r.Href ++
    optionalField "id" r.ID ++ optionalField "name" r.Name ++
    optionalField "resource_type" r.ResourceType ]

/-- Modelled from the spec: `dataSourceShareFlattenReplicationStatusReasons`,
declared outside the file. -/
def flattenReplicationStatusReasons (rs : List ShareReplicationStatusReason) : List Row :=
  rs.map (fun r =>
    optionalField "code" r.Code ++ optionalField "message" r.Message ++
    optionalField "more_info" r.MoreInfo)

/-- Modelled from the spec: `dataSourceShareFlattenTargets`, declared outside the
file. -/
def flattenTargets (ts : List ShareMountTargetReference) : List Row :=
  ts.map (fun t =>
    deletedField t.Deleted ++ optionalField "href" t.Href ++ optionalField "id" t.ID ++
    optionalField "name" t.Name ++ optionalField "resource_type" t.ResourceType)

/-- A container on which nothing has been assigned but the replica identifier. -/
def freshData : ResourceData :=
  { id := "", attrs := fun k => if k = "share_replica" then some (Value.str "r-1") else none }

/-- A session whose fetch answers `r` whatever the identifier, whose container
answers assignments with `w` and whose tag service answers `tags`. -/
def sessionWith (r : GetShareSourceResult) (w : Writer)
    (tags : String → Except String (List String)) : Env :=
  { VpcV1BetaAPI := Except.ok { GetShareSourceWithContext := fun _ => r }
    writer := w
    dataSourceShareFlattenLatestJob := flattenLatestJob
    dataSourceShareFlattenReplicaShare := flattenShareReference
    dataSourceShareFlattenReplicationStatusReasons := flattenReplicationStatusReasons
    dataSourceShareFlattenSourceShare := flattenShareReference
    dataSourceShareFlattenTargets := flattenTargets
    GetGlobalTagsUsingCRN := fun _ _ tagType => tags tagType
    isUserTagType := "user"
    isAccessTagType := "access"
    isFileShareTags := "tags"
    isFileShareAccessTags := "access_tags" }

/-- A container that accepts every assignment. -/
def acceptAll : Writer := fun _ _ => none

/-- A tag service with two user tags and one access tag. -/
def sampleTags : String → Except String (List String) :=
  fun tagType => if tagType = "user" then Except.ok ["env:dev", "team:a"] else Except.ok ["access:x"]

/-- A fetch that fails with an error and a response of the given status. -/
def errorResponse (status : Int) : GetShareSourceResult :=
  { share := none, response := some { StatusCode := status }, err := some "request failed" }

/-- A fetch that fails without a response. -/
def transportFailure : GetShareSourceResult :=
  { share := none, response := none, err := some "connection refused" }

/-- A fetch that succeeds with the given share. -/
def fetched (share : Share) : GetShareSourceResult :=
  { share := some share, response := some { StatusCode := 200 }, err := none }

/-- A container that rejects the assignments to one key and accepts the rest. -/
def rejecting (key text : String) : Writer :=
  fun k _ => if k = key then some text else none

/-- A source share with every field present, one replica reference, one
replication status reason and one mount target. -/
def sampleShare : Share :=
  { ID := some "s-1"
    CreatedAt := some "2021-09-01T10:00:00Z"
    CRN := some "crn:v1:share:s-1"
    Encryption := some "user_managed"
    EncryptionKey := some { CRN := some "crn:v1:key:k-1" }
    Href := some "https://example/shares/s-1"
    Iops := some 100
    LatestJob := some { Status := some "succeeded",
                        StatusReasons := some [{ Code := some "future_code",
                                                 Message := some "m", MoreInfo := none }],
                        Type_ := some "replication_init" }
    LifecycleState := some "stable"
    Name := some "my-share"
    Profile := some { Name := some "tier-3iops" }
    ReplicaShare := some { CRN := none, Deleted := none, Href := none, ID := some "r-1",
                           Name := some "rep", ResourceType := none }
    ReplicationCronSpec := some "0 */5 * * *"
    ReplicationRole := some "source"
    ReplicationStatus := some "active"
    ReplicationStatusReasons := some [{ Code := some "c", Message := some "m", MoreInfo := none }]
    ResourceGroup := some { ID := some "rg-1" }
    ResourceType := some "share"
    Size := some 200
    SourceShare := none
    MountTargets := some [{ Deleted := none, Href := none, ID := some "t-1",
                            Name := some "target", ResourceType := some "share_target" }]
    Zone := some { Name := some "us-south-1" } }

/-- A tag service that answers the user tags and refuses the access tags. -/
def accessDenied : String → Except String (List String) :=
  fun tagType => if tagType = "user" then Except.ok ["env:dev", "team:a"]
    else Except.error "403 forbidden"

/-- The sample share with an encryption key that carries no CRN. -/
def shareWithBareKey : Share :=
  { sampleShare with EncryptionKey := some { CRN := none } }

/-- The sample share without its CRN. -/
def shareWithoutCRN : Share :=
  { sampleShare with CRN := none }

/-- The sample share with both list-valued fields nil. -/
def shareWithoutLists : Share :=
  { sampleShare with ReplicationStatusReasons := none, MountTargets := none }

/-- The sample share with a source reference as well. -/
def shareWithSource : Share :=
  { sampleShare with
    SourceShare := some { CRN := none, Deleted := some { MoreInfo := none }, Href := none,
                          ID := some "o-1", Name := some "origin", ResourceType := none } }

/-! ## The checked assignments -/

/-- The keys of the checked assignments are the listed attribute keys. -/
theorem fieldAssignments_keys (env : Env) (share : Share) :
    (fieldAssignments env share).map Assignment.key = attributeKeys := by
  simp [fieldAssignments, always, whenPresent, attributeKeys]

/-- The checked assignments never touch the identity key. -/
theorem runAssignments_id (w : Writer) (plan : List Assignment) (d : ResourceData) :
    (runAssignments w plan d).2.id = d.id := by
  induction plan generalizing d with
  | nil => simp [runAssignments]
  | cons a rest ih =>
    simp only [runAssignments]
    split
    · cases harg : a.arg with
      | none => simp
      | some v =>
        cases hw : w a.key v with
        | none => simp [ResourceData.Set, hw, ih, ResourceData.write]
        | some e => simp [ResourceData.Set, hw]
    · exact ih d

/-- A key that no guarded assignment of the list names keeps its value. -/
theorem runAssignments_frame (w : Writer) (k : String) (plan : List Assignment)
    (d : ResourceData) (hk : ∀ a ∈ plan, a.guard = true → a.key ≠ k) :
    (runAssignments w plan d).2.attrs k = d.attrs k := by
  induction plan generalizing d with
  | nil => simp [runAssignments]
  | cons a rest ih =>
    have hrest : ∀ b ∈ rest, b.guard = true → b.key ≠ k :=
      fun b hb => hk b (List.mem_cons_of_mem a hb)
    simp only [runAssignments]
    split
    · rename_i hg
      have hne : k ≠ a.key := fun h => hk a (List.mem_cons_self a rest) hg h.symm
      cases harg : a.arg with
      | none => simp
      | some v =>
        cases hw : w a.key v with
        | none => simp [ResourceData.Set, hw, ih _ hrest, ResourceData.write, hne]
        | some e => simp [ResourceData.Set, hw]
    · exact ih d hrest

/-- A list of assignments runs as its first part followed, when that part went
through, by its second part. -/
theorem runAssignments_append (w : Writer) (pre post : List Assignment) (d : ResourceData) :
    runAssignments w (pre ++ post) d =
      (match runAssignments w pre d with
       | (none, d1) => runAssignments w post d1
       | (some stop, d1) => (some stop, d1)) := by
  induction pre generalizing d with
  | nil => simp [runAssignments]
  | cons a rest ih =>
    simp only [List.cons_append, runAssignments]
    split
    · cases harg : a.arg with
      | none => simp
      | some v =>
        cases hw : w a.key v with
        | none => simp [ResourceData.Set, hw, ih]
        | some e => simp [ResourceData.Set, hw]
    · exact ih d

/-- When every assignment went through, each key holds its planned value. -/
theorem runAssignments_done (w : Writer) (k : String) (plan : List Assignment)
    (d d1 : ResourceData) (h : runAssignments w plan d = (none, d1)) :
    d1.attrs k = plannedValue k plan (d.attrs k) := by
  induction plan generalizing d with
  | nil =>
    simp [runAssignments] at h
    simp [plannedValue, h]
  | cons a rest ih =>
    simp only [runAssignments] at h
    simp only [plannedValue]
    split at h
    · rename_i hg
      cases harg : a.arg with
      | none => simp [harg] at h
      | some v =>
        cases hw : w a.key v with
        | some e => simp [harg, ResourceData.Set, hw] at h
        | none =>
          simp only [harg, ResourceData.Set, hw] at h
          rw [ih _ h]
          by_cases hkey : a.key = k
          · simp [hg, hkey, ResourceData.write]
          · have hkey2 : ¬ k = a.key := fun h2 => hkey h2.symm
            simp [hkey, hkey2, ResourceData.write]
    · rename_i hg
      rw [ih _ h]
      simp [hg]

/-- When the container accepts the argument of every guarded assignment, and
every such argument can be computed, all the assignments go through. -/
theorem runAssignments_accepted (w : Writer) (plan : List Assignment) (d : ResourceData)
    (h : ∀ a ∈ plan, a.guard = true → ∃ v, a.arg = some v ∧ w a.key v = none) :
    (runAssignments w plan d).1 = none := by
  induction plan generalizing d with
  | nil => simp [runAssignments]
  | cons a rest ih =>
    have hrest : ∀ b ∈ rest, b.guard = true → ∃ v, b.arg = some v ∧ w b.key v = none :=
      fun b hb => h b (List.mem_cons_of_mem a hb)
    simp only [runAssignments]
    split
    · rename_i hg
      obtain ⟨v, harg, hw⟩ := h a (List.mem_cons_self a rest) hg
      simp [harg, ResourceData.Set, hw, ih _ hrest]
    · exact ih d hrest

/-- A guarded row that passes has an argument that the container accepts. -/
theorem Passes.args (w : Writer) (rows : List Assignment) (h : Passes w rows) :
    ∀ a ∈ rows, a.guard = true → ∃ v, a.arg = some v ∧ w a.key v = none := by
  intro a ha hg
  have hp := h a ha hg
  unfold Assignment.passes at hp
  cases harg : a.arg with
  | none => simp [harg] at hp
  | some v =>
    refine ⟨v, rfl, ?_⟩
    simpa [harg, Option.isNone_iff_eq_none] using hp

/-- When every guarded row passes, the run goes through. -/
theorem Passes.run (w : Writer) (rows : List Assignment) (d : ResourceData)
    (h : Passes w rows) : (runAssignments w rows d).1 = none :=
  runAssignments_accepted w rows d (Passes.args w rows h)

/-- When the argument of every guarded assignment can be computed, the
assignments do not panic. -/
theorem runAssignments_no_panic (w : Writer) (plan : List Assignment) (d : ResourceData)
    (h : ∀ a ∈ plan, a.guard = true → a.arg ≠ none) :
    (runAssignments w plan d).1 ≠ some Outcome.panicked := by
  induction plan generalizing d with
  | nil => simp [runAssignments]
  | cons a rest ih =>
    have hrest : ∀ b ∈ rest, b.guard = true → b.arg ≠ none :=
      fun b hb => h b (List.mem_cons_of_mem a hb)
    simp only [runAssignments]
    split
    · rename_i hg
      cases harg : a.arg with
      | none => exact absurd harg (h a (List.mem_cons_self a rest) hg)
      | some v =>
        cases hw : w a.key v with
        | none => simp [ResourceData.Set, hw, ih _ hrest]
        | some e => simp [ResourceData.Set, hw]
    · exact ih d hrest

/-! ## The fetch fails -/

/-- An error that comes with a response ends the read without diagnostics,
whatever the status; the identity key is cleared on status 404 and nothing else
changes. -/
theorem read_error_with_response (env : Env) (d : ResourceData) (vpcClient : VpcBetaV1)
    (e : String) (response : DetailedResponse)
    (hclient : env.VpcV1BetaAPI = Except.ok vpcClient)
    (herr : (vpcClient.GetShareSourceWithContext (d.Get "share_replica")).err = some e)
    (hresp : (vpcClient.GetShareSourceWithContext (d.Get "share_replica")).response
      = some response) :
    dataSourceIbmIsSourceShareRead env d =
      (Outcome.returned [], if response.StatusCode = 404 then d.SetId "" else d) := by
  simp [dataSourceIbmIsSourceShareRead, hclient, herr, hresp]

/-- C2: when the fetch returns an error together with a response of status 404,
the read returns no diagnostics, the identity key is the empty string and every
attribute keeps the value it had before the call. -/
theorem read_not_found (env : Env) (d : ResourceData) (vpcClient : VpcBetaV1)
    (e : String) (response : DetailedResponse)
    (hclient : env.VpcV1BetaAPI = Except.ok vpcClient)
    (herr : (vpcClient.GetShareSourceWithContext (d.Get "share_replica")).err = some e)
    (hresp : (vpcClient.GetShareSourceWithContext (d.Get "share_replica")).response
      = some response)
    (hstatus : response.StatusCode = 404) :
    (dataSourceIbmIsSourceShareRead env d).1 = Outcome.returned [] ∧
    (dataSourceIbmIsSourceShareRead env d).2.id = "" ∧
    (dataSourceIbmIsSourceShareRead env d).2.attrs = d.attrs := by
  rw [read_error_with_response env d vpcClient e response hclient herr hresp]
  simp [hstatus, ResourceData.SetId]

/-- Witness of C2: a 404 answer on a container that already holds an identity. -/
theorem read_not_found_witness :
    (dataSourceIbmIsSourceShareRead (sessionWith (errorResponse 404) acceptAll sampleTags)
        { freshData with id := "old" }).1 = Outcome.returned [] ∧
    (dataSourceIbmIsSourceShareRead (sessionWith (errorResponse 404) acceptAll sampleTags)
        { freshData with id := "old" }).2.id = "" ∧
    (dataSourceIbmIsSourceShareRead (sessionWith (errorResponse 404) acceptAll sampleTags)
        { freshData with id := "old" }).2.attrs = ({ freshData with id := "old" } : ResourceData).attrs :=
  read_not_found (sessionWith (errorResponse 404) acceptAll sampleTags)
    { freshData with id := "old" } { GetShareSourceWithContext := fun _ => errorResponse 404 }
    "request failed" { StatusCode := 404 } rfl rfl rfl rfl

/-- C3: when the fetch returns an error and no response, the read returns one
diagnostic, which contains "GetShareWithContext failed " followed by the text of
the error, and the container is left as it was (identity key and attributes). -/
theorem read_transport_failure (env : Env) (d : ResourceData) (vpcClient : VpcBetaV1)
    (e : String)
    (hclient : env.VpcV1BetaAPI = Except.ok vpcClient)
    (herr : (vpcClient.GetShareSourceWithContext (d.Get "share_replica")).err = some e)
    (hresp : (vpcClient.GetShareSourceWithContext (d.Get "share_replica")).response = none) :
    (∃ msg, (dataSourceIbmIsSourceShareRead env d).1 = Outcome.returned [msg] ∧
      Mentions msg ("GetShareWithContext failed " ++ e)) ∧
    (dataSourceIbmIsSourceShareRead env d).2 = d := by
  refine ⟨⟨"[DEBUG] GetShareWithContext failed " ++ e ++ "\n", ?_, ?_⟩, ?_⟩
  · simp [dataSourceIbmIsSourceShareRead, hclient, herr, hresp]
  · refine ⟨"[DEBUG] ".data, "\n".data, ?_⟩
    simp [String.data_append]
  · simp [dataSourceIbmIsSourceShareRead, hclient, herr, hresp]

/-- Witness of C3: a refused connection. -/
theorem read_transport_failure_witness :
    (∃ msg, (dataSourceIbmIsSourceShareRead (sessionWith transportFailure acceptAll sampleTags)
        freshData).1 = Outcome.returned [msg] ∧
      Mentions msg ("GetShareWithContext failed " ++ "connection refused")) ∧
    (dataSourceIbmIsSourceShareRead (sessionWith transportFailure acceptAll sampleTags)
        freshData).2 = freshData :=
  read_transport_failure (sessionWith transportFailure acceptAll sampleTags) freshData
    { GetShareSourceWithContext := fun _ => transportFailure } "connection refused" rfl rfl rfl

/-- C1, at a failing input: the fetch returns an error together with a response
of status 500, and the read returns no diagnostics and leaves the container as
it was. -/
theorem read_api_error_returns_no_diagnostics :
    (errorResponse 500).err = some "request failed" ∧
    (errorResponse 500).response = some { StatusCode := 500 } ∧
    (dataSourceIbmIsSourceShareRead (sessionWith (errorResponse 500) acceptAll sampleTags)
        freshData).1 = Outcome.returned [] ∧
    (dataSourceIbmIsSourceShareRead (sessionWith (errorResponse 500) acceptAll sampleTags)
        freshData).2.id = freshData.id := by
  rw [read_error_with_response (sessionWith (errorResponse 500) acceptAll sampleTags) freshData
    { GetShareSourceWithContext := fun _ => errorResponse 500 } "request failed"
    { StatusCode := 500 } rfl rfl rfl]
  simp [errorResponse]

/-! ## The fetch succeeds -/

/-- A fetch without error hands its share to the populating part. -/
theorem read_fetched (env : Env) (d : ResourceData) (vpcClient : VpcBetaV1)
    (hclient : env.VpcV1BetaAPI = Except.ok vpcClient)
    (herr : (vpcClient.GetShareSourceWithContext (d.Get "share_replica")).err = none) :
    dataSourceIbmIsSourceShareRead env d =
      populate env (vpcClient.GetShareSourceWithContext (d.Get "share_replica")).share d := by
  simp [dataSourceIbmIsSourceShareRead, hclient, herr]

/-- A stop of the checked assignments is a panic or one diagnostic, never the
empty diagnostics. -/
theorem runAssignments_stop (w : Writer) (plan : List Assignment) (d : ResourceData) :
    (runAssignments w plan d).1 ≠ some (Outcome.returned []) := by
  induction plan generalizing d with
  | nil => simp [runAssignments]
  | cons a rest ih =>
    simp only [runAssignments]
    split
    · cases harg : a.arg with
      | none => simp
      | some v =>
        cases hw : w a.key v with
        | none => simp [ResourceData.Set, hw, ih]
        | some e => simp [ResourceData.Set, hw]
    · exact ih d

/-- A key that no guarded assignment of the list names has its initial value as
planned value. -/
theorem plannedValue_absent (k : String) (plan : List Assignment) (init : Option Value)
    (hk : ∀ a ∈ plan, a.guard = true → a.key ≠ k) :
    plannedValue k plan init = init := by
  induction plan generalizing init with
  | nil => rfl
  | cons a rest ih =>
    have hrest : ∀ b ∈ rest, b.guard = true → b.key ≠ k :=
      fun b hb => hk b (List.mem_cons_of_mem a hb)
    have ha : ¬ (a.guard = true ∧ a.key = k) :=
      fun h => hk a (List.mem_cons_self a rest) h.1 h.2
    simp only [plannedValue, ha, if_false]
    exact ih init hrest

/-- When a guarded assignment is rejected after the ones before it went
through, the read returns its diagnostic, with the identity key set and the
attributes as those earlier assignments left them. -/
theorem populate_rejected (env : Env) (share : Share) (d : ResourceData) (id : String)
    (pre post : List Assignment) (a : Assignment) (v : Value) (e : String)
    (hid : share.ID = some id)
    (hsplit : fieldAssignments env share = pre ++ a :: post)
    (hpre : (runAssignments env.writer pre (d.SetId id)).1 = none)
    (hguard : a.guard = true) (harg : a.arg = some v)
    (hrej : env.writer a.key v = some e) :
    (populate env (some share) d).1 = Outcome.returned [a.errText ++ e] ∧
    (populate env (some share) d).2.id = id ∧
    ∀ k, (populate env (some share) d).2.attrs k = plannedValue k pre (d.attrs k) := by
  rcases hrun : runAssignments env.writer pre (d.SetId id) with ⟨o, d1⟩
  have ho : o = none := by simpa [hrun] using hpre
  subst ho
  have hattrs : ∀ k, d1.attrs k = plannedValue k pre (d.attrs k) := fun k => by
    simpa [ResourceData.SetId] using runAssignments_done env.writer k pre (d.SetId id) d1 hrun
  have hid1 : d1.id = id := by
    have := runAssignments_id env.writer pre (d.SetId id)
    rw [hrun] at this
    simpa [ResourceData.SetId] using this
  have hall : runAssignments env.writer (fieldAssignments env share) (d.SetId id) =
      (some (Outcome.returned [a.errText ++ e]), d1) := by
    rw [hsplit, runAssignments_append, hrun]
    simp [runAssignments, hguard, harg, ResourceData.Set, hrej]
  simp [populate, hid, hall, hid1, hattrs]

/-- What the text in front of the error contains, the whole diagnostic
contains. -/
theorem mentions_append_left (s e k : String) (h : Mentions s k) : Mentions (s ++ e) k := by
  obtain ⟨u, t, hut⟩ := h
  exact ⟨u, t ++ e.data, by simp [String.data_append, ← hut]⟩

/-- What the error contains, the whole diagnostic contains. -/
theorem mentions_append_right (s e k : String) (h : Mentions e k) : Mentions (s ++ e) k := by
  obtain ⟨u, t, hut⟩ := h
  exact ⟨s.data ++ u, t, by simp [String.data_append, ← hut]⟩

/-- The diagnostic text of every checked assignment but the one of
`share_targets` contains the key it assigns. -/
theorem errText_mentions_key (env : Env) (share : Share) (a : Assignment)
    (ha : a ∈ fieldAssignments env share) (hkey : a.key ≠ "share_targets") :
    Mentions a.errText a.key := by
  simp only [fieldAssignments, always, whenPresent, List.mem_cons, List.mem_singleton,
    List.not_mem_nil, or_false] at ha
  rcases ha with h | h | h | h | h | h | h | h | h | h | h | h | h | h | h | h | h | h | h | h | h <;>
    first
    | (subst h; exact absurd rfl hkey)
    | (subst h; dsimp only; decide)

/-- C4, as amended: when the fetch succeeds and a checked assignment is
rejected after the ones before it went through, the read returns the
diagnostic of that assignment and the container is not rolled back: the
identity key is the id of the fetched share and each attribute holds what the
earlier assignments left under it; a key that none of them names (the later
attributes, the tag attributes) is as before the call. -/
theorem read_assignment_rejected (env : Env) (d : ResourceData) (vpcClient : VpcBetaV1)
    (share : Share) (id : String)
    (pre post : List Assignment) (a : Assignment) (v : Value) (e : String)
    (hclient : env.VpcV1BetaAPI = Except.ok vpcClient)
    (herr : (vpcClient.GetShareSourceWithContext (d.Get "share_replica")).err = none)
    (hshare : (vpcClient.GetShareSourceWithContext (d.Get "share_replica")).share = some share)
    (hid : share.ID = some id)
    (hsplit : fieldAssignments env share = pre ++ a :: post)
    (hpre : (runAssignments env.writer pre (d.SetId id)).1 = none)
    (hguard : a.guard = true) (harg : a.arg = some v)
    (hrej : env.writer a.key v = some e) :
    (dataSourceIbmIsSourceShareRead env d).1 = Outcome.returned [a.errText ++ e] ∧
    (dataSourceIbmIsSourceShareRead env d).2.id = id ∧
    (∀ k, (dataSourceIbmIsSourceShareRead env d).2.attrs k = plannedValue k pre (d.attrs k)) ∧
    (∀ k, (∀ b ∈ pre, b.guard = true → b.key ≠ k) →
      (dataSourceIbmIsSourceShareRead env d).2.attrs k = d.attrs k) := by
  rw [read_fetched env d vpcClient hclient herr, hshare]
  obtain ⟨h1, h2, h3⟩ :=
    populate_rejected env share d id pre post a v e hid hsplit hpre hguard harg hrej
  exact ⟨h1, h2, h3, fun k hk => by rw [h3 k, plannedValue_absent k pre _ hk]⟩

/-- Counterexample to C4: the fetch succeeds, the assignment of `latest_job` is
rejected, the read returns its diagnostic, and the container has changed: the
identity key and `created_at` no longer have the values they had before. -/
theorem read_assignment_rejected_not_rolled_back :
    (dataSourceIbmIsSourceShareRead
      (sessionWith (fetched sampleShare) (rejecting "latest_job" "shape mismatch") sampleTags)
      freshData).1 = Outcome.returned ["Error setting latest_job shape mismatch"] ∧
    (dataSourceIbmIsSourceShareRead
      (sessionWith (fetched sampleShare) (rejecting "latest_job" "shape mismatch") sampleTags)
      freshData).2.id = "s-1" ∧
    freshData.id = "" ∧
    (dataSourceIbmIsSourceShareRead
      (sessionWith (fetched sampleShare) (rejecting "latest_job" "shape mismatch") sampleTags)
      freshData).2.attrs "created_at" = some (Value.str "2021-09-01T10:00:00Z") ∧
    freshData.attrs "created_at" = none := by
  decide

/-- C5: when a checked assignment is the one that is rejected, after the ones
before it passed, its key is one of the twenty-one listed keys, the read
returns one diagnostic, the text of the source followed by the error of the
container, and that diagnostic contains the key.  For every key but
`share_targets` the text of the source names the key, whatever the error; for
`share_targets` the text reads `targets` and the key comes with the error of
the container, which names the key it rejects. -/
theorem read_rejected_names_key (env : Env) (d : ResourceData) (vpcClient : VpcBetaV1)
    (share : Share) (id : String)
    (pre post : List Assignment) (a : Assignment) (v : Value) (e : String)
    (hclient : env.VpcV1BetaAPI = Except.ok vpcClient)
    (herr : (vpcClient.GetShareSourceWithContext (d.Get "share_replica")).err = none)
    (hshare : (vpcClient.GetShareSourceWithContext (d.Get "share_replica")).share = some share)
    (hid : share.ID = some id)
    (hsplit : fieldAssignments env share = pre ++ a :: post)
    (hpre : Passes env.writer pre)
    (hguard : a.guard = true) (harg : a.arg = some v)
    (hrej : env.writer a.key v = some e)
    (hnames : a.key = "share_targets" → Mentions e a.key) :
    a.key ∈ attributeKeys ∧
    (dataSourceIbmIsSourceShareRead env d).1 = Outcome.returned [a.errText ++ e] ∧
    Mentions (a.errText ++ e) a.key ∧
    (a.key ≠ "share_targets" → Mentions a.errText a.key) := by
  have ha : a ∈ fieldAssignments env share := by
    rw [hsplit]
    simp
  have hkey : a.key ∈ attributeKeys := by
    rw [← fieldAssignments_keys env share]
    exact List.mem_map_of_mem Assignment.key ha
  rw [read_fetched env d vpcClient hclient herr, hshare]
  refine ⟨hkey,
    (populate_rejected env share d id pre post a v e hid hsplit
      (Passes.run env.writer pre (d.SetId id) hpre) hguard harg hrej).1,
    ?_, errText_mentions_key env share a ha⟩
  by_cases htargets : a.key = "share_targets"
  · exact mentions_append_right a.errText e a.key (hnames htargets)
  · exact mentions_append_left a.errText e a.key (errText_mentions_key env share a ha htargets)

/-- Witness of C5: the container rejects `share_targets`, the twentieth checked
assignment of the sample share, with an error that names the key. -/
theorem read_rejected_names_key_witness :
    (dataSourceIbmIsSourceShareRead
      (sessionWith (fetched sampleShare)
        (rejecting "share_targets" "Invalid address to set: share_targets") sampleTags)
      freshData).1
      = Outcome.returned ["Error setting targets " ++ "Invalid address to set: share_targets"] ∧
    Mentions ("Error setting targets " ++ "Invalid address to set: share_targets")
      "share_targets" :=
  have h := read_rejected_names_key
    (sessionWith (fetched sampleShare)
      (rejecting "share_targets" "Invalid address to set: share_targets") sampleTags)
    freshData { GetShareSourceWithContext := fun _ => fetched sampleShare } sampleShare "s-1"
    ((fieldAssignments
      (sessionWith (fetched sampleShare)
        (rejecting "share_targets" "Invalid address to set: share_targets") sampleTags)
      sampleShare).take 19)
    ((fieldAssignments
      (sessionWith (fetched sampleShare)
        (rejecting "share_targets" "Invalid address to set: share_targets") sampleTags)
      sampleShare).drop 20)
    (whenPresent sampleShare.MountTargets "share_targets" "Error setting targets "
      (fun ts => some (Value.list (flattenTargets ts))))
    (Value.list (flattenTargets
      [{ Deleted := none, Href := none, ID := some "t-1", Name := some "target",
         ResourceType := some "share_target" }]))
    "Invalid address to set: share_targets"
    rfl rfl rfl rfl rfl (by decide) rfl rfl rfl (fun _ => by decide)
  ⟨h.2.1, h.2.2.1⟩

/-! ## The tag augmentation -/

/-- A checked attribute key is neither of the two tag keys. -/
theorem TagKeysApart.ne (env : Env) (h : TagKeysApart env) (k : String)
    (hk : k ∈ attributeKeys) :
    k ≠ env.isFileShareTags ∧ k ≠ env.isFileShareAccessTags := by
  refine ⟨?_, ?_⟩
  · rintro rfl
    exact h.2.1 hk
  · rintro rfl
    exact h.2.2 hk

/-- The tag augmentation leaves the identity key alone. -/
theorem augmentTags_id (env : Env) (share : Share) (d : ResourceData) :
    (augmentTags env share d).2.id = d.id := by
  unfold augmentTags
  cases share.CRN with
  | none => rfl
  | some crn => simp [ResourceData.Set, tagVerdict, ResourceData.write]

/-- The tag augmentation leaves every key but the two tag keys alone. -/
theorem augmentTags_frame (env : Env) (share : Share) (d : ResourceData) (k : String)
    (h1 : k ≠ env.isFileShareTags) (h2 : k ≠ env.isFileShareAccessTags) :
    (augmentTags env share d).2.attrs k = d.attrs k := by
  unfold augmentTags
  cases share.CRN with
  | none => rfl
  | some crn => simp [ResourceData.Set, tagVerdict, ResourceData.write, h1, h2]

/-- With a CRN at hand the tag augmentation returns no diagnostics. -/
theorem augmentTags_outcome (env : Env) (share : Share) (d : ResourceData) (crn : String)
    (hcrn : share.CRN = some crn) :
    (augmentTags env share d).1 = Outcome.returned [] := by
  simp [augmentTags, hcrn]

/-- After the tag augmentation the user-tag key holds the set of its lookup,
the two tag keys being distinct. -/
theorem augmentTags_user (env : Env) (share : Share) (d : ResourceData) (crn : String)
    (hcrn : share.CRN = some crn)
    (hkeys : env.isFileShareTags ≠ env.isFileShareAccessTags) :
    (augmentTags env share d).2.attrs env.isFileShareTags =
      some (tagSet (env.GetGlobalTagsUsingCRN crn "" env.isUserTagType)) := by
  simp [augmentTags, hcrn, ResourceData.Set, tagVerdict, ResourceData.write, hkeys]

/-- After the tag augmentation the access-tag key holds the set of its
lookup. -/
theorem augmentTags_access (env : Env) (share : Share) (d : ResourceData) (crn : String)
    (hcrn : share.CRN = some crn) :
    (augmentTags env share d).2.attrs env.isFileShareAccessTags =
      some (tagSet (env.GetGlobalTagsUsingCRN crn "" env.isAccessTagType)) := by
  simp [augmentTags, hcrn, ResourceData.Set, tagVerdict, ResourceData.write]

/-- When the checked assignments all go through, the read ends with the tag
augmentation on the container they left. -/
theorem populate_checked (env : Env) (share : Share) (d : ResourceData) (id : String)
    (hid : share.ID = some id)
    (hchecked : (runAssignments env.writer (fieldAssignments env share) (d.SetId id)).1 = none) :
    populate env (some share) d =
      augmentTags env share
        (runAssignments env.writer (fieldAssignments env share) (d.SetId id)).2 := by
  rcases hrun : runAssignments env.writer (fieldAssignments env share) (d.SetId id) with ⟨o, d1⟩
  have ho : o = none := by simpa [hrun] using hchecked
  subst ho
  simp [populate, hid, hrun]

/-- C6, as amended: when the fetch succeeds with a share that carries its CRN
and every checked assignment succeeds (each passes), the read returns no diagnostics with
the identity key equal to the id of the fetched share, whatever the outcomes
of the two tag lookups; each tag attribute holds the looked-up set when its
lookup succeeded and the empty set when its lookup failed, whatever the other
lookup did. -/
theorem read_tags (env : Env) (d : ResourceData) (vpcClient : VpcBetaV1)
    (share : Share) (id crn : String)
    (hclient : env.VpcV1BetaAPI = Except.ok vpcClient)
    (herr : (vpcClient.GetShareSourceWithContext (d.Get "share_replica")).err = none)
    (hshare : (vpcClient.GetShareSourceWithContext (d.Get "share_replica")).share = some share)
    (hid : share.ID = some id) (hcrn : share.CRN = some crn)
    (hchecked : Passes env.writer (fieldAssignments env share))
    (hkeys : env.isFileShareTags ≠ env.isFileShareAccessTags) :
    (dataSourceIbmIsSourceShareRead env d).1 = Outcome.returned [] ∧
    (dataSourceIbmIsSourceShareRead env d).2.id = id ∧
    (∀ tags, env.GetGlobalTagsUsingCRN crn "" env.isUserTagType = Except.ok tags →
      (dataSourceIbmIsSourceShareRead env d).2.attrs env.isFileShareTags
        = some (Value.set tags)) ∧
    (∀ e, env.GetGlobalTagsUsingCRN crn "" env.isUserTagType = Except.error e →
      (dataSourceIbmIsSourceShareRead env d).2.attrs env.isFileShareTags
        = some (Value.set [])) ∧
    (∀ tags, env.GetGlobalTagsUsingCRN crn "" env.isAccessTagType = Except.ok tags →
      (dataSourceIbmIsSourceShareRead env d).2.attrs env.isFileShareAccessTags
        = some (Value.set tags)) ∧
    (∀ e, env.GetGlobalTagsUsingCRN crn "" env.isAccessTagType = Except.error e →
      (dataSourceIbmIsSourceShareRead env d).2.attrs env.isFileShareAccessTags
        = some (Value.set [])) := by
  rw [read_fetched env d vpcClient hclient herr, hshare,
    populate_checked env share d id hid (Passes.run env.writer _ (d.SetId id) hchecked)]
  have huser := augmentTags_user env share
    (runAssignments env.writer (fieldAssignments env share) (d.SetId id)).2 crn hcrn hkeys
  have haccess := augmentTags_access env share
    (runAssignments env.writer (fieldAssignments env share) (d.SetId id)).2 crn hcrn
  refine ⟨augmentTags_outcome env share _ crn hcrn, ?_, ?_, ?_, ?_, ?_⟩
  · rw [augmentTags_id, runAssignments_id]
    rfl
  · intro tags hlook
    simpa [hlook, tagSet] using huser
  · intro e hlook
    simpa [hlook, tagSet] using huser
  · intro tags hlook
    simpa [hlook, tagSet] using haccess
  · intro e hlook
    simpa [hlook, tagSet] using haccess

/-- Witness of C6, as amended: the access-tag lookup is refused and the user-tag
lookup succeeds. -/
theorem read_tags_witness :
    (dataSourceIbmIsSourceShareRead
      (sessionWith (fetched sampleShare) acceptAll accessDenied) freshData).1
      = Outcome.returned [] ∧
    (dataSourceIbmIsSourceShareRead
      (sessionWith (fetched sampleShare) acceptAll accessDenied) freshData).2.id = "s-1" ∧
    (dataSourceIbmIsSourceShareRead
      (sessionWith (fetched sampleShare) acceptAll accessDenied) freshData).2.attrs "tags"
      = some (Value.set ["env:dev", "team:a"]) ∧
    (dataSourceIbmIsSourceShareRead
      (sessionWith (fetched sampleShare) acceptAll accessDenied) freshData).2.attrs "access_tags"
      = some (Value.set []) :=
  have h := read_tags (sessionWith (fetched sampleShare) acceptAll accessDenied) freshData
    { GetShareSourceWithContext := fun _ => fetched sampleShare } sampleShare "s-1"
    "crn:v1:share:s-1" rfl rfl rfl rfl rfl (by decide) (by decide)
  ⟨h.1, h.2.1, h.2.2.1 ["env:dev", "team:a"] rfl, h.2.2.2.2.2 "403 forbidden" rfl⟩

/-- Counterexample to C6: the fetch succeeds with a share that has no CRN, every
checked assignment succeeds (a nil `crn` pointer is assigned as it is), and the
read then dereferences the CRN for the first tag lookup: it panics instead of
returning success, and neither tag attribute is assigned. -/
theorem read_tags_without_crn :
    (fetched shareWithoutCRN).err = none ∧
    Passes acceptAll
      (fieldAssignments (sessionWith (fetched shareWithoutCRN) acceptAll sampleTags)
        shareWithoutCRN) ∧
    (dataSourceIbmIsSourceShareRead
      (sessionWith (fetched shareWithoutCRN) acceptAll sampleTags) freshData).1
      = Outcome.panicked ∧
    (dataSourceIbmIsSourceShareRead
      (sessionWith (fetched shareWithoutCRN) acceptAll sampleTags) freshData).1
      ≠ Outcome.returned [] ∧
    (dataSourceIbmIsSourceShareRead
      (sessionWith (fetched shareWithoutCRN) acceptAll sampleTags) freshData).2.attrs "tags"
      = none ∧
    (dataSourceIbmIsSourceShareRead
      (sessionWith (fetched shareWithoutCRN) acceptAll sampleTags) freshData).2.attrs
      "access_tags" = none := by
  decide

/-! ## Guards, frames and dereferences -/

/-- When every assignment went through, every guarded one had an argument that
the container accepted. -/
theorem runAssignments_done_args (w : Writer) (plan : List Assignment) (d d1 : ResourceData)
    (h : runAssignments w plan d = (none, d1)) :
    ∀ a ∈ plan, a.guard = true → ∃ v, a.arg = some v ∧ w a.key v = none := by
  induction plan generalizing d with
  | nil => simp
  | cons b rest ih =>
    simp only [runAssignments] at h
    intro a ha hg
    split at h
    · rename_i hb
      cases harg : b.arg with
      | none => simp [harg] at h
      | some v =>
        cases hw : w b.key v with
        | some e => simp [harg, ResourceData.Set, hw] at h
        | none =>
          simp only [harg, ResourceData.Set, hw] at h
          rcases List.mem_cons.mp ha with rfl | hmem
          · exact ⟨v, harg, hw⟩
          · exact ih _ h a hmem hg
    · rename_i hb
      rcases List.mem_cons.mp ha with rfl | hmem
      · exact absurd hg hb
      · exact ih _ h a hmem hg

/-- On a complete share the argument of every guarded assignment can be
computed. -/
theorem fieldAssignments_args (env : Env) (share : Share) (h : share.Complete) :
    ∀ a ∈ fieldAssignments env share, a.guard = true → ∃ v, a.arg = some v := by
  obtain ⟨-, hcreated, -, hkey, hprofile, hgroup, hzone⟩ := h
  intro a ha
  simp only [fieldAssignments, List.mem_cons, List.mem_singleton, List.not_mem_nil,
    or_false] at ha
  rcases ha with h | h | h | h | h | h | h | h | h | h | h | h | h | h | h | h | h | h | h | h | h <;>
    subst h <;> simp only [always, whenPresent] <;> intro hg
  · cases hc : share.CreatedAt with
    | none => simp [hc] at hcreated
    | some c => simp
  · simp
  · simp
  · cases hk : share.EncryptionKey with
    | none => simp [hk] at hg
    | some k =>
      cases hc : k.CRN with
      | none => simp [projected, hk, hc] at hkey
      | some c => simp [hc]
  · simp
  · simp
  · cases hk : share.LatestJob with
    | none => simp [hk] at hg
    | some k => simp
  · simp
  · simp
  · cases hk : share.Profile with
    | none => simp [hk] at hg
    | some k =>
      cases hc : k.Name with
      | none => simp [projected, hk, hc] at hprofile
      | some c => simp [hc]
  · cases hk : share.ReplicaShare with
    | none => simp [hk] at hg
    | some k => simp
  · simp
  · simp
  · simp
  · cases hk : share.ReplicationStatusReasons with
    | none => simp [hk] at hg
    | some k => simp
  · cases hk : share.ResourceGroup with
    | none => simp [hk] at hg
    | some k =>
      cases hc : k.ID with
      | none => simp [projected, hk, hc] at hgroup
      | some c => simp [hc]
  · simp
  · simp
  · cases hk : share.SourceShare with
    | none => simp [hk] at hg
    | some k => simp
  · cases hk : share.MountTargets with
    | none => simp [hk] at hg
    | some k => simp
  · cases hk : share.Zone with
    | none => simp [hk] at hg
    | some k =>
      cases hc : k.Name with
      | none => simp [projected, hk, hc] at hzone
      | some c => simp [hc]

/-- Without an id the populating part panics at once. -/
theorem populate_no_id (env : Env) (share : Share) (d : ResourceData)
    (hid : share.ID = none) :
    populate env (some share) d = (Outcome.panicked, d) := by
  simp [populate, hid]

/-- When a checked assignment stops the run, its outcome is the outcome of the
read. -/
theorem populate_stopped (env : Env) (share : Share) (d d1 : ResourceData) (id : String)
    (stop : Outcome) (hid : share.ID = some id)
    (hrun : runAssignments env.writer (fieldAssignments env share) (d.SetId id)
      = (some stop, d1)) :
    populate env (some share) d = (stop, d1) := by
  simp [populate, hid, hrun]

/-- When the checked assignments go through, the tag augmentation ends the
read. -/
theorem populate_through (env : Env) (share : Share) (d d1 : ResourceData) (id : String)
    (hid : share.ID = some id)
    (hrun : runAssignments env.writer (fieldAssignments env share) (d.SetId id) = (none, d1)) :
    populate env (some share) d = augmentTags env share d1 := by
  simp [populate, hid, hrun]

/-- A key that no guarded checked assignment names, and that is not a tag key,
has after the read the value it had before. -/
theorem populate_frame (env : Env) (share : Share) (d : ResourceData) (k : String)
    (hplan : ∀ a ∈ fieldAssignments env share, a.guard = true → a.key ≠ k)
    (h1 : k ≠ env.isFileShareTags) (h2 : k ≠ env.isFileShareAccessTags) :
    (populate env (some share) d).2.attrs k = d.attrs k := by
  cases hid : share.ID with
  | none => rw [populate_no_id env share d hid]
  | some id =>
    have hframe := runAssignments_frame env.writer k (fieldAssignments env share) (d.SetId id) hplan
    rcases hrun : runAssignments env.writer (fieldAssignments env share) (d.SetId id)
      with ⟨o, d1⟩
    rw [hrun] at hframe
    cases o with
    | some stop =>
      rw [populate_stopped env share d d1 id stop hid hrun]
      simpa [ResourceData.SetId] using hframe
    | none =>
      rw [populate_through env share d d1 id hid hrun, augmentTags_frame env share d1 k h1 h2]
      simpa [ResourceData.SetId] using hframe

/-- When the read returns no diagnostics after a fetch without error, every
checked assignment went through, and each key other than the tag keys holds
its planned value. -/
theorem populate_done (env : Env) (share : Share) (d : ResourceData)
    (hok : (populate env (some share) d).1 = Outcome.returned []) :
    (∀ a ∈ fieldAssignments env share, a.guard = true →
      ∃ v, a.arg = some v ∧ env.writer a.key v = none) ∧
    ∀ k, k ≠ env.isFileShareTags → k ≠ env.isFileShareAccessTags →
      (populate env (some share) d).2.attrs k =
        plannedValue k (fieldAssignments env share) (d.attrs k) := by
  cases hid : share.ID with
  | none =>
    rw [populate_no_id env share d hid] at hok
    simp at hok
  | some id =>
    rcases hrun : runAssignments env.writer (fieldAssignments env share) (d.SetId id)
      with ⟨o, d1⟩
    cases o with
    | some stop =>
      have hstop := runAssignments_stop env.writer (fieldAssignments env share) (d.SetId id)
      rw [populate_stopped env share d d1 id stop hid hrun] at hok
      rw [hrun] at hstop
      simp only [] at hok hstop
      subst hok
      exact absurd rfl hstop
    | none =>
      refine ⟨runAssignments_done_args env.writer _ _ d1 hrun, ?_⟩
      intro k h1 h2
      rw [populate_through env share d d1 id hid hrun, augmentTags_frame env share d1 k h1 h2]
      simpa [ResourceData.SetId] using
        runAssignments_done env.writer k (fieldAssignments env share) (d.SetId id) d1 hrun

/-- A guarded assignment under one of the nine guarded keys has its field
present. -/
theorem fieldAssignments_guard (env : Env) (share : Share) (a : Assignment)
    (ha : a ∈ fieldAssignments env share) (hg : a.guard = true) :
    (a.key = "encryption_key" → share.EncryptionKey.isSome = true) ∧
    (a.key = "latest_job" → share.LatestJob.isSome = true) ∧
    (a.key = "profile" → share.Profile.isSome = true) ∧
    (a.key = "replica_share" → share.ReplicaShare.isSome = true) ∧
    (a.key = "replication_status_reasons" → share.ReplicationStatusReasons.isSome = true) ∧
    (a.key = "resource_group" → share.ResourceGroup.isSome = true) ∧
    (a.key = "source_share" → share.SourceShare.isSome = true) ∧
    (a.key = "share_targets" → share.MountTargets.isSome = true) ∧
    (a.key = "zone" → share.Zone.isSome = true) := by
  simp only [fieldAssignments, List.mem_cons, List.mem_singleton, List.not_mem_nil,
    or_false] at ha
  rcases ha with h | h | h | h | h | h | h | h | h | h | h | h | h | h | h | h | h | h | h | h | h <;>
    subst h <;> simp [always, whenPresent] at hg ⊢ <;> exact hg

/-- The planned values of the checked assignments, key by key. -/
theorem plannedValue_fieldAssignments (env : Env) (share : Share) (init : Option Value) :
    plannedValue "encryption_key" (fieldAssignments env share) init =
      (if share.EncryptionKey.isSome = true
        then share.EncryptionKey.bind (fun k => k.CRN.map Value.str) else init) ∧
    plannedValue "latest_job" (fieldAssignments env share) init =
      (if share.LatestJob.isSome = true
        then share.LatestJob.bind
          (fun j => some (Value.list (env.dataSourceShareFlattenLatestJob j))) else init) ∧
    plannedValue "profile" (fieldAssignments env share) init =
      (if share.Profile.isSome = true
        then share.Profile.bind (fun p => p.Name.map Value.str) else init) ∧
    plannedValue "replica_share" (fieldAssignments env share) init =
      (if share.ReplicaShare.isSome = true
        then share.ReplicaShare.bind
          (fun r => some (Value.list (env.dataSourceShareFlattenReplicaShare r))) else init) ∧
    plannedValue "replication_status_reasons" (fieldAssignments env share) init =
      (if share.ReplicationStatusReasons.isSome = true
        then share.ReplicationStatusReasons.bind
          (fun rs => some (Value.list (env.dataSourceShareFlattenReplicationStatusReasons rs)))
        else init) ∧
    plannedValue "resource_group" (fieldAssignments env share) init =
      (if share.ResourceGroup.isSome = true
        then share.ResourceGroup.bind (fun g => g.ID.map Value.str) else init) ∧
    plannedValue "source_share" (fieldAssignments env share) init =
      (if share.SourceShare.isSome = true
        then share.SourceShare.bind
          (fun r => some (Value.list (env.dataSourceShareFlattenSourceShare r))) else init) ∧
    plannedValue "share_targets" (fieldAssignments env share) init =
      (if share.MountTargets.isSome = true
        then share.MountTargets.bind
          (fun ts => some (Value.list (env.dataSourceShareFlattenTargets ts))) else init) ∧
    plannedValue "zone" (fieldAssignments env share) init =
      (if share.Zone.isSome = true
        then share.Zone.bind (fun z => z.Name.map Value.str) else init) ∧
    plannedValue "replication_role" (fieldAssignments env share) init =
      some (Value.strPtr share.ReplicationRole) ∧
    plannedValue "replication_status" (fieldAssignments env share) init =
      some (Value.strPtr share.ReplicationStatus) ∧
    plannedValue "lifecycle_state" (fieldAssignments env share) init =
      some (Value.strPtr share.LifecycleState) := by
  simp [plannedValue, fieldAssignments, always, whenPresent]

/-- A field that is absent leaves its guarded key with the value it had. -/
theorem populate_absent (env : Env) (share : Share) (d : ResourceData) (k : String)
    (hkeys : TagKeysApart env) (hk : k ∈ attributeKeys)
    (hguard : ∀ a ∈ fieldAssignments env share, a.guard = true → a.key ≠ k) :
    (populate env (some share) d).2.attrs k = d.attrs k :=
  populate_frame env share d k hguard (hkeys.ne env k hk).1 (hkeys.ne env k hk).2

/-- A list of rows is its part up to a key followed by its part after it. -/
theorem upTo_append_after (k : String) (plan : List Assignment) :
    upTo k plan ++ after k plan = plan := by
  induction plan with
  | nil => rfl
  | cons a rest ih =>
    by_cases h : a.key = k
    · simp [upTo, after, h]
    · simp [upTo, after, h, ih]

/-- No checked assignment that follows the one of a listed key names that key
again. -/
theorem after_fieldAssignments (env : Env) (share : Share) (k : String)
    (hk : k ∈ attributeKeys) :
    ∀ a ∈ after k (fieldAssignments env share), a.key ≠ k := by
  simp only [attributeKeys, List.mem_cons, List.mem_singleton, List.not_mem_nil,
    or_false] at hk
  rcases hk with h | h | h | h | h | h | h | h | h | h | h | h | h | h | h | h | h | h | h | h | h <;>
    subst h <;> simp [after, fieldAssignments, always, whenPresent]

/-- After the read, a key other than the tag keys holds what the checked
assignments left under it. -/
theorem populate_attrs (env : Env) (share : Share) (d : ResourceData) (id : String)
    (k : String) (hid : share.ID = some id)
    (h1 : k ≠ env.isFileShareTags) (h2 : k ≠ env.isFileShareAccessTags) :
    (populate env (some share) d).2.attrs k =
      (runAssignments env.writer (fieldAssignments env share) (d.SetId id)).2.attrs k := by
  rcases hrun : runAssignments env.writer (fieldAssignments env share) (d.SetId id)
    with ⟨o, d1⟩
  cases o with
  | some stop => rw [populate_stopped env share d d1 id stop hid hrun]
  | none =>
    rw [populate_through env share d d1 id hid hrun, augmentTags_frame env share d1 k h1 h2]

/-- When the checked assignments up to and including the one of a key go
through, the key holds its planned value after the read, whatever the later
assignments and the tag augmentation do. -/
theorem populate_reached (env : Env) (share : Share) (d : ResourceData) (id : String)
    (k : String) (hid : share.ID = some id) (hk : k ∈ attributeKeys)
    (hkeys : TagKeysApart env)
    (hreach : (runAssignments env.writer (upTo k (fieldAssignments env share))
      (d.SetId id)).1 = none) :
    (populate env (some share) d).2.attrs k =
      plannedValue k (upTo k (fieldAssignments env share)) (d.attrs k) := by
  rw [populate_attrs env share d id k hid (hkeys.ne env k hk).1 (hkeys.ne env k hk).2]
  have hsplit : runAssignments env.writer (fieldAssignments env share) (d.SetId id) =
      runAssignments env.writer
        (upTo k (fieldAssignments env share) ++ after k (fieldAssignments env share))
        (d.SetId id) := by
    rw [upTo_append_after]
  rw [hsplit, runAssignments_append]
  rcases hrun : runAssignments env.writer (upTo k (fieldAssignments env share)) (d.SetId id)
    with ⟨o, d1⟩
  have ho : o = none := by simpa [hrun] using hreach
  subst ho
  simp only []
  rw [runAssignments_frame env.writer k _ d1
    (fun a ha _ => after_fieldAssignments env share k hk a ha)]
  simpa [ResourceData.SetId] using
    runAssignments_done env.writer k _ (d.SetId id) d1 hrun

/-- The planned values of the seven guarded records once the checked
assignments up to theirs have gone through. -/
theorem plannedValue_upTo (env : Env) (share : Share) (init : Option Value) :
    plannedValue "encryption_key" (upTo "encryption_key" (fieldAssignments env share)) init =
      (if share.EncryptionKey.isSome = true
        then share.EncryptionKey.bind (fun k => k.CRN.map Value.str) else init) ∧
    plannedValue "latest_job" (upTo "latest_job" (fieldAssignments env share)) init =
      (if share.LatestJob.isSome = true
        then share.LatestJob.bind
          (fun j => some (Value.list (env.dataSourceShareFlattenLatestJob j))) else init) ∧
    plannedValue "profile" (upTo "profile" (fieldAssignments env share)) init =
      (if share.Profile.isSome = true
        then share.Profile.bind (fun p => p.Name.map Value.str) else init) ∧
    plannedValue "replica_share" (upTo "replica_share" (fieldAssignments env share)) init =
      (if share.ReplicaShare.isSome = true
        then share.ReplicaShare.bind
          (fun r => some (Value.list (env.dataSourceShareFlattenReplicaShare r))) else init) ∧
    plannedValue "resource_group" (upTo "resource_group" (fieldAssignments env share)) init =
      (if share.ResourceGroup.isSome = true
        then share.ResourceGroup.bind (fun g => g.ID.map Value.str) else init) ∧
    plannedValue "source_share" (upTo "source_share" (fieldAssignments env share)) init =
      (if share.SourceShare.isSome = true
        then share.SourceShare.bind
          (fun r => some (Value.list (env.dataSourceShareFlattenSourceShare r))) else init) ∧
    plannedValue "zone" (upTo "zone" (fieldAssignments env share)) init =
      (if share.Zone.isSome = true
        then share.Zone.bind (fun z => z.Name.map Value.str) else init) := by
  simp [plannedValue, upTo, fieldAssignments, always, whenPresent]

/-- C8, as amended: after a fetch without error, each optional nested record
(latest job, replica share, source share, profile, zone, resource group,
encryption key) that is absent from the response leaves its key with the value
it had before the call, so a key that was absent stays absent; each one that
is present has its key assigned, to the flattened record or to the projected
field, provided the id of the share is present and every checked
assignment up to and including the one of that key passes (the container
accepts it and its argument dereferences no nil pointer), whatever happens
afterwards. -/
theorem read_optional_records (env : Env) (d : ResourceData) (vpcClient : VpcBetaV1)
    (share : Share)
    (hclient : env.VpcV1BetaAPI = Except.ok vpcClient)
    (herr : (vpcClient.GetShareSourceWithContext (d.Get "share_replica")).err = none)
    (hshare : (vpcClient.GetShareSourceWithContext (d.Get "share_replica")).share = some share)
    (hkeys : TagKeysApart env) :
    ((share.LatestJob = none →
        (dataSourceIbmIsSourceShareRead env d).2.attrs "latest_job" = d.attrs "latest_job") ∧
     (∀ x id, share.LatestJob = some x → share.ID = some id →
        Passes env.writer (upTo "latest_job" (fieldAssignments env share)) →
        (dataSourceIbmIsSourceShareRead env d).2.attrs "latest_job"
          = some (Value.list (env.dataSourceShareFlattenLatestJob x)))) ∧
    ((share.ReplicaShare = none →
        (dataSourceIbmIsSourceShareRead env d).2.attrs "replica_share" = d.attrs "replica_share") ∧
     (∀ x id, share.ReplicaShare = some x → share.ID = some id →
        Passes env.writer (upTo "replica_share" (fieldAssignments env share)) →
        (dataSourceIbmIsSourceShareRead env d).2.attrs "replica_share"
          = some (Value.list (env.dataSourceShareFlattenReplicaShare x)))) ∧
    ((share.SourceShare = none →
        (dataSourceIbmIsSourceShareRead env d).2.attrs "source_share" = d.attrs "source_share") ∧
     (∀ x id, share.SourceShare = some x → share.ID = some id →
        Passes env.writer (upTo "source_share" (fieldAssignments env share)) →
        (dataSourceIbmIsSourceShareRead env d).2.attrs "source_share"
          = some (Value.list (env.dataSourceShareFlattenSourceShare x)))) ∧
    ((share.Profile = none →
        (dataSourceIbmIsSourceShareRead env d).2.attrs "profile" = d.attrs "profile") ∧
     (∀ x id, share.Profile = some x → share.ID = some id →
        Passes env.writer (upTo "profile" (fieldAssignments env share)) →
        ∃ s, x.Name = some s ∧
          (dataSourceIbmIsSourceShareRead env d).2.attrs "profile" = some (Value.str s))) ∧
    ((share.Zone = none →
        (dataSourceIbmIsSourceShareRead env d).2.attrs "zone" = d.attrs "zone") ∧
     (∀ x id, share.Zone = some x → share.ID = some id →
        Passes env.writer (upTo "zone" (fieldAssignments env share)) →
        ∃ s, x.Name = some s ∧
          (dataSourceIbmIsSourceShareRead env d).2.attrs "zone" = some (Value.str s))) ∧
    ((share.ResourceGroup = none →
        (dataSourceIbmIsSourceShareRead env d).2.attrs "resource_group" = d.attrs "resource_group") ∧
     (∀ x id, share.ResourceGroup = some x → share.ID = some id →
        Passes env.writer (upTo "resource_group" (fieldAssignments env share)) →
        ∃ s, x.ID = some s ∧
          (dataSourceIbmIsSourceShareRead env d).2.attrs "resource_group" = some (Value.str s))) ∧
    ((share.EncryptionKey = none →
        (dataSourceIbmIsSourceShareRead env d).2.attrs "encryption_key" = d.attrs "encryption_key") ∧
     (∀ x id, share.EncryptionKey = some x → share.ID = some id →
        Passes env.writer (upTo "encryption_key" (fieldAssignments env share)) →
        ∃ s, x.CRN = some s ∧
          (dataSourceIbmIsSourceShareRead env d).2.attrs "encryption_key" = some (Value.str s))) := by
  rw [read_fetched env d vpcClient hclient herr, hshare]
  have habsent : ∀ k ∈ attributeKeys,
      (∀ a ∈ fieldAssignments env share, a.guard = true → a.key ≠ k) →
      (populate env (some share) d).2.attrs k = d.attrs k :=
    fun k hk hg => populate_absent env share d k hkeys hk hg
  have hreached : ∀ k ∈ attributeKeys, ∀ id, share.ID = some id →
      Passes env.writer (upTo k (fieldAssignments env share)) →
      (populate env (some share) d).2.attrs k =
        plannedValue k (upTo k (fieldAssignments env share)) (d.attrs k) :=
    fun k hk id hid hreach =>
      populate_reached env share d id k hid hk hkeys
        (Passes.run env.writer _ (d.SetId id) hreach)
  have hplanned := plannedValue_upTo env share
  refine ⟨⟨?_, ?_⟩, ⟨?_, ?_⟩, ⟨?_, ?_⟩, ⟨?_, ?_⟩, ⟨?_, ?_⟩, ⟨?_, ?_⟩, ⟨?_, ?_⟩⟩
  · intro hnone
    refine habsent "latest_job" (by decide) (fun a ha hg hkey => ?_)
    have := (fieldAssignments_guard env share a ha hg).2.1 hkey
    simp [hnone] at this
  · intro x id hx hid hreach
    rw [hreached "latest_job" (by decide) id hid hreach, (hplanned _).2.1]
    simp [hx]
  · intro hnone
    refine habsent "replica_share" (by decide) (fun a ha hg hkey => ?_)
    have := (fieldAssignments_guard env share a ha hg).2.2.2.1 hkey
    simp [hnone] at this
  · intro x id hx hid hreach
    rw [hreached "replica_share" (by decide) id hid hreach, (hplanned _).2.2.2.1]
    simp [hx]
  · intro hnone
    refine habsent "source_share" (by decide) (fun a ha hg hkey => ?_)
    have := (fieldAssignments_guard env share a ha hg).2.2.2.2.2.2.1 hkey
    simp [hnone] at this
  · intro x id hx hid hreach
    rw [hreached "source_share" (by decide) id hid hreach, (hplanned _).2.2.2.2.2.1]
    simp [hx]
  · intro hnone
    refine habsent "profile" (by decide) (fun a ha hg hkey => ?_)
    have := (fieldAssignments_guard env share a ha hg).2.2.1 hkey
    simp [hnone] at this
  · intro x id hx hid hreach
    obtain ⟨v, hv, -⟩ := Passes.args env.writer _ hreach
      (whenPresent share.Profile "profile" "Error setting profile "
          (fun p => p.Name.map Value.str))
      (by simp [upTo, fieldAssignments, always, whenPresent]) (by simp [whenPresent, hx])
    cases hn : x.Name with
    | none => simp [whenPresent, hx, hn] at hv
    | some s =>
      refine ⟨s, rfl, ?_⟩
      rw [hreached "profile" (by decide) id hid hreach, (hplanned _).2.2.1]
      simp [hx, hn]
  · intro hnone
    refine habsent "zone" (by decide) (fun a ha hg hkey => ?_)
    have := (fieldAssignments_guard env share a ha hg).2.2.2.2.2.2.2.2 hkey
    simp [hnone] at this
  · intro x id hx hid hreach
    obtain ⟨v, hv, -⟩ := Passes.args env.writer _ hreach
      (whenPresent share.Zone "zone" "Error setting zone "
          (fun z => z.Name.map Value.str))
      (by simp [upTo, fieldAssignments, always, whenPresent]) (by simp [whenPresent, hx])
    cases hn : x.Name with
    | none => simp [whenPresent, hx, hn] at hv
    | some s =>
      refine ⟨s, rfl, ?_⟩
      rw [hreached "zone" (by decide) id hid hreach, (hplanned _).2.2.2.2.2.2]
      simp [hx, hn]
  · intro hnone
    refine habsent "resource_group" (by decide) (fun a ha hg hkey => ?_)
    have := (fieldAssignments_guard env share a ha hg).2.2.2.2.2.1 hkey
    simp [hnone] at this
  · intro x id hx hid hreach
    obtain ⟨v, hv, -⟩ := Passes.args env.writer _ hreach
      (whenPresent share.ResourceGroup "resource_group" "Error setting resource_group "
          (fun g => g.ID.map Value.str))
      (by simp [upTo, fieldAssignments, always, whenPresent]) (by simp [whenPresent, hx])
    cases hn : x.ID with
    | none => simp [whenPresent, hx, hn] at hv
    | some s =>
      refine ⟨s, rfl, ?_⟩
      rw [hreached "resource_group" (by decide) id hid hreach, (hplanned _).2.2.2.2.1]
      simp [hx, hn]
  · intro hnone
    refine habsent "encryption_key" (by decide) (fun a ha hg hkey => ?_)
    have := (fieldAssignments_guard env share a ha hg).1 hkey
    simp [hnone] at this
  · intro x id hx hid hreach
    obtain ⟨v, hv, -⟩ := Passes.args env.writer _ hreach
      (whenPresent share.EncryptionKey "encryption_key" "Error setting encryption_key "
          (fun k => k.CRN.map Value.str))
      (by simp [upTo, fieldAssignments, always, whenPresent]) (by simp [whenPresent, hx])
    cases hn : x.CRN with
    | none => simp [whenPresent, hx, hn] at hv
    | some s =>
      refine ⟨s, rfl, ?_⟩
      rw [hreached "encryption_key" (by decide) id hid hreach, (hplanned _).1]
      simp [hx, hn]

/-- Witness of C8, as amended: on the sample share, which has no source share,
`source_share` stays absent; on the share with a source reference and a
container that rejects `zone`, the last checked assignment, the read fails and
the records before it are assigned all the same. -/
theorem read_optional_records_witness :
    (dataSourceIbmIsSourceShareRead
      (sessionWith (fetched sampleShare) acceptAll sampleTags) freshData).2.attrs "source_share"
      = freshData.attrs "source_share" ∧
    (dataSourceIbmIsSourceShareRead
      (sessionWith (fetched shareWithSource) (rejecting "zone" "zone: not a string")
        sampleTags) freshData).2.attrs "source_share"
      = some (Value.list
          [[("deleted", Field.rows [[]]), ("id", Field.str "o-1"),
            ("name", Field.str "origin")]]) ∧
    (dataSourceIbmIsSourceShareRead
      (sessionWith (fetched shareWithSource) (rejecting "zone" "zone: not a string")
        sampleTags) freshData).2.attrs "replica_share"
      = some (Value.list [[("id", Field.str "r-1"), ("name", Field.str "rep")]]) ∧
    (∃ s, some "crn:v1:key:k-1" = some s ∧
      (dataSourceIbmIsSourceShareRead
        (sessionWith (fetched shareWithSource) (rejecting "zone" "zone: not a string")
          sampleTags) freshData).2.attrs "encryption_key" = some (Value.str s)) :=
  have h0 := read_optional_records (sessionWith (fetched sampleShare) acceptAll sampleTags)
    freshData { GetShareSourceWithContext := fun _ => fetched sampleShare } sampleShare
    rfl rfl rfl (by decide)
  have h := read_optional_records
    (sessionWith (fetched shareWithSource) (rejecting "zone" "zone: not a string") sampleTags)
    freshData { GetShareSourceWithContext := fun _ => fetched shareWithSource } shareWithSource
    rfl rfl rfl (by decide)
  ⟨h0.2.2.1.1 rfl, h.2.2.1.2 _ "s-1" rfl rfl (by decide), h.2.1.2 _ "s-1" rfl rfl (by decide),
    h.2.2.2.2.2.2.2 _ "s-1" rfl rfl (by decide)⟩

/-- Counterexample to C8: the fetch succeeds with an encryption key that has no
CRN; the key, the latest job and the zone are present in the response, the
read panics on the projection of the key, and none of the three keys is
assigned.  On the sample share and a container that rejects `crn`, the read
returns that diagnostic and the zone, present in the response, is not
assigned either. -/
theorem read_present_record_unassigned :
    (fetched shareWithBareKey).err = none ∧
    shareWithBareKey.EncryptionKey.isSome = true ∧
    shareWithBareKey.LatestJob.isSome = true ∧
    shareWithBareKey.Zone.isSome = true ∧
    (dataSourceIbmIsSourceShareRead
      (sessionWith (fetched shareWithBareKey) acceptAll sampleTags) freshData).1
      = Outcome.panicked ∧
    (dataSourceIbmIsSourceShareRead
      (sessionWith (fetched shareWithBareKey) acceptAll sampleTags) freshData).2.attrs
      "encryption_key" = none ∧
    (dataSourceIbmIsSourceShareRead
      (sessionWith (fetched shareWithBareKey) acceptAll sampleTags) freshData).2.attrs
      "latest_job" = none ∧
    (dataSourceIbmIsSourceShareRead
      (sessionWith (fetched shareWithBareKey) acceptAll sampleTags) freshData).2.attrs
      "zone" = none ∧
    sampleShare.Zone.isSome = true ∧
    (dataSourceIbmIsSourceShareRead
      (sessionWith (fetched sampleShare) (rejecting "crn" "crn: not a string") sampleTags)
      freshData).1 = Outcome.returned ["Error setting crn: crn: not a string"] ∧
    (dataSourceIbmIsSourceShareRead
      (sessionWith (fetched sampleShare) (rejecting "crn" "crn: not a string") sampleTags)
      freshData).2.attrs "zone" = none := by
  decide

/-- C7, as amended: after a fetch without error, a list-valued field
(replication status reasons, mount targets) that is nil is not assigned: its
key keeps the value it had before the call and stays omitted when it was
omitted; a list that is present, empty or not, is assigned in flattened form on
every read that returns no diagnostics. -/
theorem read_nil_list_unassigned (env : Env) (d : ResourceData) (vpcClient : VpcBetaV1)
    (share : Share)
    (hclient : env.VpcV1BetaAPI = Except.ok vpcClient)
    (herr : (vpcClient.GetShareSourceWithContext (d.Get "share_replica")).err = none)
    (hshare : (vpcClient.GetShareSourceWithContext (d.Get "share_replica")).share = some share)
    (hkeys : TagKeysApart env) :
    (share.ReplicationStatusReasons = none →
      (dataSourceIbmIsSourceShareRead env d).2.attrs "replication_status_reasons"
        = d.attrs "replication_status_reasons") ∧
    (share.MountTargets = none →
      (dataSourceIbmIsSourceShareRead env d).2.attrs "share_targets"
        = d.attrs "share_targets") ∧
    (∀ rs, share.ReplicationStatusReasons = some rs →
      (dataSourceIbmIsSourceShareRead env d).1 = Outcome.returned [] →
      (dataSourceIbmIsSourceShareRead env d).2.attrs "replication_status_reasons"
        = some (Value.list (env.dataSourceShareFlattenReplicationStatusReasons rs))) ∧
    (∀ ts, share.MountTargets = some ts →
      (dataSourceIbmIsSourceShareRead env d).1 = Outcome.returned [] →
      (dataSourceIbmIsSourceShareRead env d).2.attrs "share_targets"
        = some (Value.list (env.dataSourceShareFlattenTargets ts))) := by
  rw [read_fetched env d vpcClient hclient herr, hshare]
  have hpresent : (populate env (some share) d).1 = Outcome.returned [] →
      ∀ k ∈ attributeKeys, (populate env (some share) d).2.attrs k =
        plannedValue k (fieldAssignments env share) (d.attrs k) :=
    fun hok k hk => (populate_done env share d hok).2 k (hkeys.ne env k hk).1 (hkeys.ne env k hk).2
  have hplanned := plannedValue_fieldAssignments env share
  refine ⟨?_, ?_, ?_, ?_⟩
  · intro hnone
    refine populate_absent env share d "replication_status_reasons" hkeys (by decide)
      (fun a ha hg hkey => ?_)
    have := (fieldAssignments_guard env share a ha hg).2.2.2.2.1 hkey
    simp [hnone] at this
  · intro hnone
    refine populate_absent env share d "share_targets" hkeys (by decide)
      (fun a ha hg hkey => ?_)
    have := (fieldAssignments_guard env share a ha hg).2.2.2.2.2.2.2.1 hkey
    simp [hnone] at this
  · intro rs hrs hok
    rw [hpresent hok "replication_status_reasons" (by decide), (hplanned _).2.2.2.2.1]
    simp [hrs]
  · intro ts hts hok
    rw [hpresent hok "share_targets" (by decide), (hplanned _).2.2.2.2.2.2.2.1]
    simp [hts]

/-- Witness of C7, as amended: both lists nil on a container that holds nothing
under their keys. -/
theorem read_nil_list_unassigned_witness :
    (dataSourceIbmIsSourceShareRead
      (sessionWith (fetched shareWithoutLists) acceptAll sampleTags) freshData).2.attrs
      "replication_status_reasons" = freshData.attrs "replication_status_reasons" ∧
    (dataSourceIbmIsSourceShareRead
      (sessionWith (fetched shareWithoutLists) acceptAll sampleTags) freshData).2.attrs
      "share_targets" = freshData.attrs "share_targets" :=
  have h := read_nil_list_unassigned
    (sessionWith (fetched shareWithoutLists) acceptAll sampleTags) freshData
    { GetShareSourceWithContext := fun _ => fetched shareWithoutLists } shareWithoutLists
    rfl rfl rfl (by decide)
  ⟨h.1 rfl, h.2.1 rfl⟩

/-- Counterexample to C7: the fetch succeeds with both list-valued fields nil,
the read returns no diagnostics, and the two keys are left unassigned instead
of holding an empty list. -/
theorem read_nil_list_leaves_key_omitted :
    shareWithoutLists.ReplicationStatusReasons = none ∧
    shareWithoutLists.MountTargets = none ∧
    (dataSourceIbmIsSourceShareRead
      (sessionWith (fetched shareWithoutLists) acceptAll sampleTags) freshData).1
      = Outcome.returned [] ∧
    (dataSourceIbmIsSourceShareRead
      (sessionWith (fetched shareWithoutLists) acceptAll sampleTags) freshData).2.attrs
      "replication_status_reasons" = none ∧
    (dataSourceIbmIsSourceShareRead
      (sessionWith (fetched shareWithoutLists) acceptAll sampleTags) freshData).2.attrs
      "share_targets" = none ∧
    (dataSourceIbmIsSourceShareRead
      (sessionWith (fetched shareWithoutLists) acceptAll sampleTags) freshData).2.attrs
      "replication_status_reasons" ≠ some (Value.list []) ∧
    (dataSourceIbmIsSourceShareRead
      (sessionWith (fetched shareWithoutLists) acceptAll sampleTags) freshData).2.attrs
      "share_targets" ≠ some (Value.list []) := by
  decide

/-- Witness of C4, as amended: the container rejects `latest_job`, the seventh
checked assignment of the sample share. -/
theorem read_assignment_rejected_witness :
    (dataSourceIbmIsSourceShareRead
      (sessionWith (fetched sampleShare) (rejecting "latest_job" "shape mismatch") sampleTags)
      freshData).1 = Outcome.returned ["Error setting latest_job " ++ "shape mismatch"] ∧
    (dataSourceIbmIsSourceShareRead
      (sessionWith (fetched sampleShare) (rejecting "latest_job" "shape mismatch") sampleTags)
      freshData).2.id = "s-1" ∧
    (dataSourceIbmIsSourceShareRead
      (sessionWith (fetched sampleShare) (rejecting "latest_job" "shape mismatch") sampleTags)
      freshData).2.attrs "created_at" = some (Value.str "2021-09-01T10:00:00Z") ∧
    (dataSourceIbmIsSourceShareRead
      (sessionWith (fetched sampleShare) (rejecting "latest_job" "shape mismatch") sampleTags)
      freshData).2.attrs "zone" = freshData.attrs "zone" :=
  have h := read_assignment_rejected
    (sessionWith (fetched sampleShare) (rejecting "latest_job" "shape mismatch") sampleTags)
    freshData { GetShareSourceWithContext := fun _ => fetched sampleShare } sampleShare "s-1"
    ((fieldAssignments
      (sessionWith (fetched sampleShare) (rejecting "latest_job" "shape mismatch") sampleTags)
      sampleShare).take 6)
    ((fieldAssignments
      (sessionWith (fetched sampleShare) (rejecting "latest_job" "shape mismatch") sampleTags)
      sampleShare).drop 7)
    (whenPresent sampleShare.LatestJob "latest_job" "Error setting latest_job "
      (fun j => some (Value.list (flattenLatestJob j))))
    (Value.list (flattenLatestJob
      { Status := some "succeeded",
        StatusReasons := some [{ Code := some "future_code", Message := some "m",
                                 MoreInfo := none }],
        Type_ := some "replication_init" }))
    "shape mismatch" rfl rfl rfl rfl rfl (by decide) rfl rfl rfl
  ⟨h.1, h.2.1, (h.2.2.1 "created_at").trans (by decide), h.2.2.2 "zone" (by decide)⟩

/-! ## Pass-through and dereferences -/

/-- On a complete share, a container that accepts the checked attribute keys
lets every checked assignment through. -/
theorem runAssignments_complete (env : Env) (share : Share) (d : ResourceData)
    (hcomplete : share.Complete)
    (haccept : ∀ k v, k ∈ attributeKeys → env.writer k v = none) :
    (runAssignments env.writer (fieldAssignments env share) d).1 = none := by
  refine runAssignments_accepted env.writer _ d (fun a ha hg => ?_)
  obtain ⟨v, hv⟩ := fieldAssignments_args env share hcomplete a ha hg
  have hkey : a.key ∈ attributeKeys := by
    rw [← fieldAssignments_keys env share]
    exact List.mem_map_of_mem Assignment.key ha
  exact ⟨v, hv, haccept a.key v hkey⟩

/-- C9: after a fetch without error of a complete share, on a container that
accepts the checked attribute keys, the read returns no diagnostics and stores
`replication_role`, `replication_status` and `lifecycle_state` exactly as the
response carries them, whatever their text and whichever of the replica and
source references are present; a reference that is present is stored in
flattened form, whatever the role. -/
theorem read_passes_values_through (env : Env) (d : ResourceData) (vpcClient : VpcBetaV1)
    (share : Share)
    (hclient : env.VpcV1BetaAPI = Except.ok vpcClient)
    (herr : (vpcClient.GetShareSourceWithContext (d.Get "share_replica")).err = none)
    (hshare : (vpcClient.GetShareSourceWithContext (d.Get "share_replica")).share = some share)
    (hcomplete : share.Complete)
    (haccept : ∀ k v, k ∈ attributeKeys → env.writer k v = none)
    (hkeys : TagKeysApart env) :
    (dataSourceIbmIsSourceShareRead env d).1 = Outcome.returned [] ∧
    (dataSourceIbmIsSourceShareRead env d).2.attrs "replication_role"
      = some (Value.strPtr share.ReplicationRole) ∧
    (dataSourceIbmIsSourceShareRead env d).2.attrs "replication_status"
      = some (Value.strPtr share.ReplicationStatus) ∧
    (dataSourceIbmIsSourceShareRead env d).2.attrs "lifecycle_state"
      = some (Value.strPtr share.LifecycleState) ∧
    (∀ r, share.ReplicaShare = some r →
      (dataSourceIbmIsSourceShareRead env d).2.attrs "replica_share"
        = some (Value.list (env.dataSourceShareFlattenReplicaShare r))) ∧
    (∀ r, share.SourceShare = some r →
      (dataSourceIbmIsSourceShareRead env d).2.attrs "source_share"
        = some (Value.list (env.dataSourceShareFlattenSourceShare r))) := by
  rw [read_fetched env d vpcClient hclient herr, hshare]
  obtain ⟨id, hid⟩ := Option.isSome_iff_exists.mp hcomplete.1
  obtain ⟨crn, hcrn⟩ := Option.isSome_iff_exists.mp hcomplete.2.2.1
  have hok : (populate env (some share) d).1 = Outcome.returned [] := by
    rw [populate_checked env share d id hid
      (runAssignments_complete env share (d.SetId id) hcomplete haccept)]
    exact augmentTags_outcome env share _ crn hcrn
  have hpresent : ∀ k ∈ attributeKeys, (populate env (some share) d).2.attrs k =
      plannedValue k (fieldAssignments env share) (d.attrs k) :=
    fun k hk => (populate_done env share d hok).2 k (hkeys.ne env k hk).1 (hkeys.ne env k hk).2
  have hplanned := plannedValue_fieldAssignments env share
  refine ⟨hok, ?_, ?_, ?_, ?_, ?_⟩
  · rw [hpresent "replication_role" (by decide), (hplanned _).2.2.2.2.2.2.2.2.2.1]
  · rw [hpresent "replication_status" (by decide), (hplanned _).2.2.2.2.2.2.2.2.2.2.1]
  · rw [hpresent "lifecycle_state" (by decide), (hplanned _).2.2.2.2.2.2.2.2.2.2.2]
  · intro r hr
    rw [hpresent "replica_share" (by decide), (hplanned _).2.2.2.1]
    simp [hr]
  · intro r hr
    rw [hpresent "source_share" (by decide), (hplanned _).2.2.2.2.2.2.1]
    simp [hr]

/-- Witness of C9: the sample share has role `source` and a replica reference
with id `r-1` and name `rep`. -/
theorem read_passes_values_through_witness :
    (dataSourceIbmIsSourceShareRead
      (sessionWith (fetched sampleShare) acceptAll sampleTags) freshData).1
      = Outcome.returned [] ∧
    (dataSourceIbmIsSourceShareRead
      (sessionWith (fetched sampleShare) acceptAll sampleTags) freshData).2.attrs
      "replication_role" = some (Value.strPtr (some "source")) ∧
    (dataSourceIbmIsSourceShareRead
      (sessionWith (fetched sampleShare) acceptAll sampleTags) freshData).2.attrs
      "replica_share"
      = some (Value.list [[("id", Field.str "r-1"), ("name", Field.str "rep")]]) :=
  have h := read_passes_values_through
    (sessionWith (fetched sampleShare) acceptAll sampleTags) freshData
    { GetShareSourceWithContext := fun _ => fetched sampleShare } sampleShare
    rfl rfl rfl (by decide) (fun _ _ _ => rfl) (by decide)
  ⟨h.1, h.2.1, h.2.2.2.2.1 _ rfl⟩

/-- C10: after a fetch without error, the read of a complete share (id,
creation time and CRN present, and each present nested record carrying its
projected field) does not dereference a nil pointer; a share with an
encryption key that has no CRN, and a share without CRN, are not complete, and
on each of them the read panics instead of returning. -/
theorem read_no_nil_dereference :
    (∀ (env : Env) (d : ResourceData) (vpcClient : VpcBetaV1) (share : Share),
      env.VpcV1BetaAPI = Except.ok vpcClient →
      (vpcClient.GetShareSourceWithContext (d.Get "share_replica")).err = none →
      (vpcClient.GetShareSourceWithContext (d.Get "share_replica")).share = some share →
      share.Complete →
      (dataSourceIbmIsSourceShareRead env d).1 ≠ Outcome.panicked) ∧
    (¬ shareWithBareKey.Complete ∧
      (dataSourceIbmIsSourceShareRead
        (sessionWith (fetched shareWithBareKey) acceptAll sampleTags) freshData).1
        = Outcome.panicked) ∧
    (¬ shareWithoutCRN.Complete ∧
      (dataSourceIbmIsSourceShareRead
        (sessionWith (fetched shareWithoutCRN) acceptAll sampleTags) freshData).1
        = Outcome.panicked) := by
  refine ⟨?_, by decide, by decide⟩
  intro env d vpcClient share hclient herr hshare hcomplete
  rw [read_fetched env d vpcClient hclient herr, hshare]
  obtain ⟨id, hid⟩ := Option.isSome_iff_exists.mp hcomplete.1
  obtain ⟨crn, hcrn⟩ := Option.isSome_iff_exists.mp hcomplete.2.2.1
  rcases hrun : runAssignments env.writer (fieldAssignments env share) (d.SetId id)
    with ⟨o, d1⟩
  cases o with
  | some stop =>
    rw [populate_stopped env share d d1 id stop hid hrun]
    have hno := runAssignments_no_panic env.writer (fieldAssignments env share) (d.SetId id)
      (fun a ha hg => by
        obtain ⟨v, hv⟩ := fieldAssignments_args env share hcomplete a ha hg
        simp [hv])
    rw [hrun] at hno
    intro hstop
    exact hno (by simpa using hstop)
  | none =>
    rw [populate_through env share d d1 id hid hrun, augmentTags_outcome env share d1 crn hcrn]
    simp

/-- Witness of C10: the sample share is complete, and its read on a container
that rejects `latest_job` returns instead of panicking. -/
theorem read_no_nil_dereference_witness :
    (dataSourceIbmIsSourceShareRead
      (sessionWith (fetched sampleShare) (rejecting "latest_job" "shape mismatch") sampleTags)
      freshData).1 ≠ Outcome.panicked :=
  read_no_nil_dereference.1
    (sessionWith (fetched sampleShare) (rejecting "latest_job" "shape mismatch") sampleTags)
    freshData { GetShareSourceWithContext := fun _ => fetched sampleShare } sampleShare
    rfl rfl rfl (by decide)

end SourceShare
